import Mathlib

/-
Verification of the romanization matching engine of this repository.

The repository contains two generations of the matcher:
  * `InputHandler` (the file with `KANA_ROMAJI_MAP` and `COMBO_MAP`), and
  * `RomajiCore` (typing-game/src/game/RomajiCore.ts, with `ROMAJI_TABLE`).

Strings of the source are modelled as `List Char`.  TypeScript lookups
`MAP[key] || fallback` are modelled by total functions returning `[]` for a
missing key (no table value is the empty list, so emptiness exactly encodes
absence of the key).
-/

namespace Typing

/-- apostrophe character, used in the romaji spelling of the syllabic nasal. -/
def apos : Char := Char.ofNat 39

/-- a romaji spelling, i.e. a short ASCII string. -/
abbrev Rom := List Char

/-- string literal converted to its character list. -/
def str (s : String) : Rom := s.data

/-! ## InputHandler (first-generation engine) -/

/-- the `KANA_ROMAJI_MAP` of the source, as a total function.  The source map
has one stray entry keyed by the two-letter ASCII string `ru` instead of the
kana る; since lookups are always by a single kana character, that entry is
unreachable and る has no entry. -/
def KANA_ROMAJI_MAP : Char → List Rom
  | 'あ' => [str "a"]
  | 'い' => [str "i"]
  | 'う' => [str "u"]
  | 'え' => [str "e"]
  | 'お' => [str "o"]
  | 'か' => [str "ka", str "ca"]
  | 'き' => [str "ki"]
  | 'く' => [str "ku", str "cu", str "qu"]
  | 'け' => [str "ke"]
  | 'こ' => [str "ko", str "co"]
  | 'さ' => [str "sa"]
  | 'し' => [str "shi", str "si", str "ci"]
  | 'す' => [str "su"]
  | 'せ' => [str "se", str "ce"]
  | 'そ' => [str "so"]
  | 'た' => [str "ta"]
  | 'ち' => [str "chi", str "ti"]
  | 'つ' => [str "tsu", str "tu"]
  | 'て' => [str "te"]
  | 'と' => [str "to"]
  | 'な' => [str "na"]
  | 'に' => [str "ni"]
  | 'ぬ' => [str "nu"]
  | 'ね' => [str "ne"]
  | 'の' => [str "no"]
  | 'は' => [str "ha"]
  | 'ひ' => [str "hi"]
  | 'ふ' => [str "fu", str "hu"]
  | 'へ' => [str "he"]
  | 'ほ' => [str "ho"]
  | 'ま' => [str "ma"]
  | 'み' => [str "mi"]
  | 'む' => [str "mu"]
  | 'め' => [str "me"]
  | 'も' => [str "mo"]
  | 'や' => [str "ya"]
  | 'ゆ' => [str "yu"]
  | 'よ' => [str "yo"]
  | 'ら' => [str "ra"]
  | 'り' => [str "ri"]
  | 'れ' => [str "re"]
  | 'ろ' => [str "ro"]
  | 'わ' => [str "wa"]
  | 'を' => [str "wo"]
  | 'ん' => [str "nn", str "xn", str "n"]
  | 'が' => [str "ga"]
  | 'ぎ' => [str "gi"]
  | 'ぐ' => [str "gu"]
  | 'げ' => [str "ge"]
  | 'ご' => [str "go"]
  | 'ざ' => [str "za"]
  | 'じ' => [str "ji", str "zi"]
  | 'ず' => [str "zu"]
  | 'ぜ' => [str "ze"]
  | 'ぞ' => [str "zo"]
  | 'だ' => [str "da"]
  | 'ぢ' => [str "ji", str "di"]
  | 'づ' => [str "zu", str "du"]
  | 'で' => [str "de"]
  | 'ど' => [str "do"]
  | 'ば' => [str "ba"]
  | 'び' => [str "bi"]
  | 'ぶ' => [str "bu"]
  | 'べ' => [str "be"]
  | 'ぼ' => [str "bo"]
  | 'ぱ' => [str "pa"]
  | 'ぴ' => [str "pi"]
  | 'ぷ' => [str "pu"]
  | 'ぺ' => [str "pe"]
  | 'ぽ' => [str "po"]
  | 'ゃ' => [str "xy"]
  | 'ゅ' => [str "xyu"]
  | 'ょ' => [str "xyo"]
  | 'っ' => [str "xtu", str "xtsu"]
  | 'ー' => [str "-"]
  | _ => []

/-- the `COMBO_MAP` of the source, keyed by the two kana of the combo. -/
def COMBO_MAP : Char → Char → List Rom
  | 'き', 'ゃ' => [str "kya"]
  | 'き', 'ゅ' => [str "kyu"]
  | 'き', 'ょ' => [str "kyo"]
  | 'し', 'ゃ' => [str "sha", str "sya"]
  | 'し', 'ゅ' => [str "shu", str "syu"]
  | 'し', 'ょ' => [str "sho", str "syo"]
  | 'ち', 'ゃ' => [str "cha", str "tya"]
  | 'ち', 'ゅ' => [str "chu", str "tyu"]
  | 'ち', 'ょ' => [str "cho", str "tyo"]
  | 'に', 'ゃ' => [str "nya"]
  | 'に', 'ゅ' => [str "nyu"]
  | 'に', 'ょ' => [str "nyo"]
  | 'ひ', 'ゃ' => [str "hya"]
  | 'ひ', 'ゅ' => [str "hyu"]
  | 'ひ', 'ょ' => [str "hyo"]
  | 'み', 'ゃ' => [str "mya"]
  | 'み', 'ゅ' => [str "myu"]
  | 'み', 'ょ' => [str "myo"]
  | 'り', 'ゃ' => [str "rya"]
  | 'り', 'ゅ' => [str "ryu"]
  | 'り', 'ょ' => [str "ryo"]
  | 'ぎ', 'ゃ' => [str "gya"]
  | 'ぎ', 'ゅ' => [str "gyu"]
  | 'ぎ', 'ょ' => [str "gyo"]
  | 'じ', 'ゃ' => [str "ja", str "jya", str "zya"]
  | 'じ', 'ゅ' => [str "ju", str "jyu", str "zyu"]
  | 'じ', 'ょ' => [str "jo", str "jyo", str "zyo"]
  | 'び', 'ゃ' => [str "bya"]
  | 'び', 'ゅ' => [str "byu"]
  | 'び', 'ょ' => [str "byo"]
  | 'ぴ', 'ゃ' => [str "pya"]
  | 'ぴ', 'ゅ' => [str "pyu"]
  | 'ぴ', 'ょ' => [str "pyo"]
  | _, _ => []

/-- the small-form kana of `isCombo`.  The source list also contains the
two-letter ASCII strings aa, ee, ii, oo, uu, which a single character can
never equal, so only the three small kana matter. -/
def isSmall (c : Char) : Bool := c = 'ゃ' || c = 'ゅ' || c = 'ょ'

/-- the source `isCombo(c1, c2)` ignores `c1` and only tests whether `c2`
(possibly undefined, here `none`) is a small form. -/
def isComboNext : Option Char → Bool
  | some c2 => isSmall c2
  | none => false

/-- models `list || ['?']` on a lookup result (a present entry is never the
empty list). -/
def orQuestion (l : List Rom) : List Rom :=
  if l = [] then [str "?"] else l

/-- models `r[0] + r` for a non-empty spelling `r`. -/
def doubleFirst (r : Rom) : Rom :=
  match r with
  | [] => []
  | a :: _ => a :: r

/-- `getPossibleRomajis(index)` of the source, as a function of the part of
the target at and after the index (`targetKana.drop index`). -/
def possibleRomajisFrom : List Char → List Rom
  | [] => [str "?"]
  | c1 :: rest =>
    if c1 = 'っ' then
      match rest with
      | [] => [str "xtu", str "xtsu"]
      | _ :: _ => (possibleRomajisFrom rest).map doubleFirst ++ [str "xtu", str "xtsu"]
    else
      match rest.head? with
      | some c2 => if isSmall c2 then orQuestion (COMBO_MAP c1 c2) else orQuestion (KANA_ROMAJI_MAP c1)
      | none => orQuestion (KANA_ROMAJI_MAP c1)

/-- the mutable fields of an `InputHandler` instance. -/
structure InputHandler where
  targetKana : List Char
  currentInput : Rom
  currentIndex : Nat
  totalTyped : Nat
  totalMisses : Nat
deriving DecidableEq

/-- a freshly constructed `InputHandler` (all fields at their initializers). -/
def InputHandler.new : InputHandler :=
  { targetKana := [], currentInput := [], currentIndex := 0, totalTyped := 0, totalMisses := 0 }

/-- `setTarget` of the source: new target, cursor and buffer reset,
counters untouched. -/
def setTarget (s : InputHandler) (kana : List Char) : InputHandler :=
  { s with targetKana := kana, currentIndex := 0, currentInput := [] }

/-- `getStats` of the source. -/
def getStats (s : InputHandler) : Nat × Nat :=
  (s.totalTyped, s.totalMisses)

/-- `advanceChar` of the source: advance by 2 over a combo, else by 1, and
clear the buffer. -/
def advanceChar (s : InputHandler) : InputHandler :=
  { s with
    currentIndex := s.currentIndex + (if isComboNext s.targetKana[s.currentIndex + 1]? then 2 else 1),
    currentInput := [] }

/-- `handleKey` of the source, returning the boolean result and the updated
state. -/
def handleKey (s : InputHandler) (key : List Char) : Bool × InputHandler :=
  if s.targetKana.length ≤ s.currentIndex then (false, s)
  else if key.length ≠ 1 then (false, s)
  else
    let possible := possibleRomajisFrom (s.targetKana.drop s.currentIndex)
    let nextInput := s.currentInput ++ key
    if possible.any (fun r => nextInput.isPrefixOf r) then
      if possible.contains nextInput then
        (true, advanceChar { s with currentInput := nextInput, totalTyped := s.totalTyped + 1 })
      else
        (true, { s with currentInput := nextInput, totalTyped := s.totalTyped + 1 })
    else
      (false, { s with totalMisses := s.totalMisses + 1 })

/-- fold a whole key sequence through `handleKey`. -/
def runKeys (s : InputHandler) : List (List Char) → InputHandler
  | [] => s
  | k :: ks => runKeys (handleKey s k).2 ks

/-- number of calls of a key sequence that are evaluated, i.e. made while the
handler is not yet finished. -/
def evalCount (s : InputHandler) : List (List Char) → Nat
  | [] => 0
  | k :: ks =>
    (if s.currentIndex < s.targetKana.length then 1 else 0) + evalCount (handleKey s k).2 ks

/-- states reachable from a fresh handler on a given target by key events. -/
inductive ReachableIH (target : List Char) : InputHandler → Prop
  | base : ReachableIH target (setTarget InputHandler.new target)
  | step (s : InputHandler) (key : List Char) (h : ReachableIH target s) :
      ReachableIH target (handleKey s key).2

/-! ## RomajiCore (second-generation engine) -/

/-- the `ROMAJI_TABLE` of RomajiCore.ts, keyed by one or two kana characters,
as a total function (missing key ↦ `[]`, matching `ROMAJI_TABLE[kana] || []`). -/
def ROMAJI_TABLE : List Char → List Rom
  | ['あ'] => [str "a"]
  | ['い'] => [str "i", str "yi"]
  | ['う'] => [str "u", str "wu", str "whu"]
  | ['え'] => [str "e"]
  | ['お'] => [str "o"]
  | ['か'] => [str "ka", str "ca"]
  | ['き'] => [str "ki"]
  | ['く'] => [str "ku", str "cu", str "qu"]
  | ['け'] => [str "ke"]
  | ['こ'] => [str "ko", str "co"]
  | ['さ'] => [str "sa"]
  | ['し'] => [str "shi", str "si", str "ci"]
  | ['す'] => [str "su"]
  | ['せ'] => [str "se", str "ce"]
  | ['そ'] => [str "so"]
  | ['た'] => [str "ta"]
  | ['ち'] => [str "chi", str "ti"]
  | ['つ'] => [str "tsu", str "tu"]
  | ['て'] => [str "te"]
  | ['と'] => [str "to"]
  | ['な'] => [str "na"]
  | ['に'] => [str "ni"]
  | ['ぬ'] => [str "nu"]
  | ['ね'] => [str "ne"]
  | ['の'] => [str "no"]
  | ['は'] => [str "ha"]
  | ['ひ'] => [str "hi"]
  | ['ふ'] => [str "fu", str "hu"]
  | ['へ'] => [str "he"]
  | ['ほ'] => [str "ho"]
  | ['ま'] => [str "ma"]
  | ['み'] => [str "mi"]
  | ['む'] => [str "mu"]
  | ['め'] => [str "me"]
  | ['も'] => [str "mo"]
  | ['や'] => [str "ya"]
  | ['ゆ'] => [str "yu"]
  | ['よ'] => [str "yo"]
  | ['ら'] => [str "ra"]
  | ['り'] => [str "ri"]
  | ['る'] => [str "ru"]
  | ['れ'] => [str "re"]
  | ['ろ'] => [str "ro"]
  | ['わ'] => [str "wa"]
  | ['を'] => [str "wo"]
  | ['ん'] => [str "n", str "nn", ['n', apos]]
  | ['が'] => [str "ga"]
  | ['ぎ'] => [str "gi"]
  | ['ぐ'] => [str "gu"]
  | ['げ'] => [str "ge"]
  | ['ご'] => [str "go"]
  | ['ざ'] => [str "za"]
  | ['じ'] => [str "ji", str "zi"]
  | ['ず'] => [str "zu"]
  | ['ぜ'] => [str "ze"]
  | ['ぞ'] => [str "zo"]
  | ['だ'] => [str "da"]
  | ['ぢ'] => [str "ji", str "di"]
  | ['づ'] => [str "zu", str "du"]
  | ['で'] => [str "de"]
  | ['ど'] => [str "do"]
  | ['ば'] => [str "ba"]
  | ['び'] => [str "bi"]
  | ['ぶ'] => [str "bu"]
  | ['べ'] => [str "be"]
  | ['ぼ'] => [str "bo"]
  | ['ぱ'] => [str "pa"]
  | ['ぴ'] => [str "pi"]
  | ['ぷ'] => [str "pu"]
  | ['ぺ'] => [str "pe"]
  | ['ぽ'] => [str "po"]
  | ['ぁ'] => [str "la", str "xa"]
  | ['ぃ'] => [str "li", str "xi"]
  | ['ぅ'] => [str "lu", str "xu"]
  | ['ぇ'] => [str "le", str "xe"]
  | ['ぉ'] => [str "lo", str "xo"]
  | ['ゃ'] => [str "lya", str "xya"]
  | ['ゅ'] => [str "lyu", str "xyu"]
  | ['ょ'] => [str "lyo", str "xyo"]
  | ['っ'] => [str "ltu", str "xtu", str "ltsu"]
  | ['ー'] => [str "-"]
  | ['き', 'ゃ'] => [str "kya"]
  | ['き', 'ゅ'] => [str "kyu"]
  | ['き', 'ょ'] => [str "kyo"]
  | ['し', 'ゃ'] => [str "sha", str "sya"]
  | ['し', 'ゅ'] => [str "shu", str "syu"]
  | ['し', 'ょ'] => [str "sho", str "syo"]
  | ['ち', 'ゃ'] => [str "cha", str "cya", str "tya"]
  | ['ち', 'ゅ'] => [str "chu", str "cyu", str "tyu"]
  | ['ち', 'ょ'] => [str "cho", str "cyo", str "tyo"]
  | ['に', 'ゃ'] => [str "nya"]
  | ['に', 'ゅ'] => [str "nyu"]
  | ['に', 'ょ'] => [str "nyo"]
  | ['ひ', 'ゃ'] => [str "hya"]
  | ['ひ', 'ゅ'] => [str "hyu"]
  | ['ひ', 'ょ'] => [str "hyo"]
  | ['み', 'ゃ'] => [str "mya"]
  | ['み', 'ゅ'] => [str "myu"]
  | ['み', 'ょ'] => [str "myo"]
  | ['り', 'ゃ'] => [str "rya"]
  | ['り', 'ゅ'] => [str "ryu"]
  | ['り', 'ょ'] => [str "ryo"]
  | ['ぎ', 'ゃ'] => [str "gya"]
  | ['ぎ', 'ゅ'] => [str "gyu"]
  | ['ぎ', 'ょ'] => [str "gyo"]
  | ['じ', 'ゃ'] => [str "ja", str "jya", str "zya"]
  | ['じ', 'ゅ'] => [str "ju", str "jyu", str "zyu"]
  | ['じ', 'ょ'] => [str "jo", str "jyo", str "zyo"]
  | ['び', 'ゃ'] => [str "bya"]
  | ['び', 'ゅ'] => [str "byu"]
  | ['び', 'ょ'] => [str "byo"]
  | ['ぴ', 'ゃ'] => [str "pya"]
  | ['ぴ', 'ゅ'] => [str "pyu"]
  | ['ぴ', 'ょ'] => [str "pyo"]
  | ['ふ', 'ぁ'] => [str "fa"]
  | ['ふ', 'ぃ'] => [str "fi"]
  | ['ふ', 'ぇ'] => [str "fe"]
  | ['ふ', 'ぉ'] => [str "fo"]
  | ['ゔ'] => [str "vu"]
  | ['う', 'ぃ'] => [str "wi"]
  | ['う', 'ぇ'] => [str "we"]
  | ['ヴ'] => [str "vu"]
  | ['、'] => [str ","]
  | ['。'] => [str "."]
  | _ => []

/-- `matchesAnything` of the source (the source method `matchesPrefix` has
the identical body and is modelled by this same function): some listed
spelling of the kana has the input as a prefix. -/
def matchesAnything (kana : List Char) (input : Rom) : Bool :=
  (ROMAJI_TABLE kana).any (fun r => input.isPrefixOf r)

/-- `isComplete` of the source: the input is one of the listed spellings. -/
def isComplete (kana : List Char) (input : Rom) : Bool :=
  (ROMAJI_TABLE kana).contains input

/-- `getConsonants` of the source: first character of each listed spelling,
deduplicated. -/
def getConsonants (kana : List Char) : List Char :=
  ((ROMAJI_TABLE kana).filterMap List.head?).dedup

/-- result record of `checkMatch`. -/
structure MatchRes where
  completedKanaCount : Nat
  remainingBuffer : Rom
deriving DecidableEq

/-- the compound (two-kana) branch of `checkMatch`. -/
def compound2 (c1 : Char) (rest : List Char) (input : Rom) : Option MatchRes :=
  match rest with
  | [] => none
  | c2 :: _ =>
    if matchesAnything [c1, c2] input then
      if isComplete [c1, c2] input then some ⟨2, []⟩ else some ⟨0, input⟩
    else none

/-- the first small-tsu branch of `checkMatch`: a single consonant key equal
to the first letter of a next-kana spelling consumes っ with an empty
remaining buffer; otherwise っ's own escape spellings are tried. -/
def sokuonDirect (c1 : Char) (rest : List Char) (input : Rom) : Option MatchRes :=
  if c1 = 'っ' then
    match rest with
    | [] => none
    | c2 :: _ =>
      if (getConsonants [c2]).any (fun cons => input = [cons]) then some ⟨1, []⟩
      else if matchesAnything ['っ'] input then
        if isComplete ['っ'] input then some ⟨1, []⟩ else some ⟨0, input⟩
      else none
  else none

/-- the plain single-kana branch of `checkMatch`. -/
def plainStep (c1 : Char) (input : Rom) : Option MatchRes :=
  if matchesAnything [c1] input then
    if isComplete [c1] input then some ⟨1, []⟩ else some ⟨0, input⟩
  else none

/-- the buffer-overflow branch of `checkMatch`: the first listed spelling
that is a prefix of the input consumes the kana, the rest spills over. -/
def overflowStep (c1 : Char) (input : Rom) : Option MatchRes :=
  ((ROMAJI_TABLE [c1]).find? (fun r => r.isPrefixOf input)).map
    (fun r => ⟨1, input.drop r.length⟩)

/-- the second small-tsu branch of `checkMatch`: if the first input character
could start the next kana, っ is consumed and the whole input is kept. -/
def sokuonSpill (c1 : Char) (rest : List Char) (input : Rom) : Option MatchRes :=
  if c1 = 'っ' then
    match rest, input with
    | c2 :: _, k :: _ => if matchesAnything [c2] [k] then some ⟨1, input⟩ else none
    | _, _ => none
  else none

/-- the guarded single-n branch of `checkMatch` for the syllabic nasal. -/
def nasalSpill (c1 : Char) (input : Rom) : Option MatchRes :=
  if c1 = 'ん' then
    match input with
    | 'n' :: l0 :: ls =>
      if l0 = 'a' ∨ l0 = 'i' ∨ l0 = 'u' ∨ l0 = 'e' ∨ l0 = 'o' ∨ l0 = 'y' ∨ l0 = 'n' then none
      else some ⟨1, l0 :: ls⟩
    | _ => none
  else none

/-- `checkMatch` of the source: the branches above tried in source order,
first returned result wins. -/
def checkMatch (text input : Rom) : Option MatchRes :=
  match text with
  | [] => none
  | c1 :: rest =>
    (compound2 c1 rest input).orElse fun _ =>
    (sokuonDirect c1 rest input).orElse fun _ =>
    (plainStep c1 input).orElse fun _ =>
    (overflowStep c1 input).orElse fun _ =>
    (sokuonSpill c1 rest input).orElse fun _ =>
    nasalSpill c1 input

/-- the mutable fields of a `RomajiCore` instance. -/
structure RomajiCore where
  kanaText : List Char
  currentIndex : Nat
  currentInputBuffer : Rom
deriving DecidableEq

/-- `isFinished` of the source. -/
def RomajiCore.isFinished (s : RomajiCore) : Bool :=
  s.kanaText.length ≤ s.currentIndex

/-- `input` of the source, returning the boolean result and the updated
state. -/
def RomajiCore.input (s : RomajiCore) (key : Rom) : Bool × RomajiCore :=
  if s.isFinished then (false, s)
  else
    let remainingKana := s.kanaText.drop s.currentIndex
    let nextInputBuffer := s.currentInputBuffer ++ key
    match checkMatch remainingKana nextInputBuffer with
    | some m =>
      if 0 < m.completedKanaCount then
        (true, { s with currentIndex := s.currentIndex + m.completedKanaCount,
                        currentInputBuffer := m.remainingBuffer })
      else
        (true, { s with currentInputBuffer := nextInputBuffer })
    | none => (false, s)

/-- fold a whole key sequence through `RomajiCore.input`. -/
def runRomaji (s : RomajiCore) : List Rom → RomajiCore
  | [] => s
  | k :: ks => runRomaji (RomajiCore.input s k).2 ks

/-- `getNextExpectedRomaji` of the source (the UI hint). -/
def RomajiCore.getNextExpectedRomaji (s : RomajiCore) : Rom :=
  if s.isFinished then []
  else
    match s.kanaText.drop s.currentIndex with
    | [] => []
    | c1 :: rest =>
      if c1 = 'っ' then
        match rest with
        | c2 :: _ =>
          match (ROMAJI_TABLE [c2]).head? with
          | some nextRomaji =>
            match nextRomaji with
            | [] => str "xtu"
            | a :: _ => a :: nextRomaji
          | none => str "xtu"
        | [] => str "xtu"
      else
        match rest with
        | c2 :: _ =>
          match ROMAJI_TABLE [c1, c2] with
          | [] =>
            match ROMAJI_TABLE [c1] with
            | [] => [c1]
            | r :: _ => r
          | r :: _ => r
        | [] =>
          match ROMAJI_TABLE [c1] with
          | [] => [c1]
          | r :: _ => r

/-! ## Helper lemmas -/

theorem orQuestion_ne_nil (l : List Rom) : orQuestion l ≠ [] := by
  unfold orQuestion
  split_ifs with h
  · simp
  · exact h

theorem possibleRomajisFrom_ne_nil (rem : List Char) : possibleRomajisFrom rem ≠ [] := by
  match rem with
  | [] => simp [possibleRomajisFrom]
  | c1 :: rest =>
    by_cases h1 : c1 = 'っ'
    · subst h1
      match rest with
      | [] => simp [possibleRomajisFrom]
      | _ :: _ => simp [possibleRomajisFrom]
    · match rest with
      | [] => simp [possibleRomajisFrom, h1, orQuestion_ne_nil]
      | c2 :: r' =>
        by_cases h2 : isSmall c2 = true <;>
          simp [possibleRomajisFrom, h1, h2, orQuestion_ne_nil]

theorem nil_buffer_ok (rem : List Char) :
    ∃ r ∈ possibleRomajisFrom rem, List.isPrefixOf ([] : Rom) r = true := by
  obtain ⟨r, hr⟩ := List.exists_mem_of_ne_nil _ (possibleRomajisFrom_ne_nil rem)
  exact ⟨r, hr, by simp [List.isPrefixOf]⟩

theorem handleKey_counts (s : InputHandler) (key : List Char) (hk : key.length = 1) :
    (handleKey s key).2.totalTyped + (handleKey s key).2.totalMisses =
      s.totalTyped + s.totalMisses +
        (if s.currentIndex < s.targetKana.length then 1 else 0) := by
  by_cases h1 : s.targetKana.length ≤ s.currentIndex
  · have hnl : ¬ s.currentIndex < s.targetKana.length := by omega
    rw [if_neg hnl]
    simp only [handleKey]
    rw [if_pos h1]
    show s.totalTyped + s.totalMisses = s.totalTyped + s.totalMisses + 0
    omega
  · have hl : s.currentIndex < s.targetKana.length := by omega
    rw [if_pos hl]
    simp only [handleKey]
    rw [if_neg h1, if_neg (not_not_intro hk)]
    by_cases h3 : (possibleRomajisFrom (s.targetKana.drop s.currentIndex)).any
        (fun r => (s.currentInput ++ key).isPrefixOf r) = true
    · rw [if_pos h3]
      by_cases h4 : (possibleRomajisFrom (s.targetKana.drop s.currentIndex)).contains
          (s.currentInput ++ key) = true
      · rw [if_pos h4]
        show s.totalTyped + 1 + s.totalMisses = s.totalTyped + s.totalMisses + 1
        omega
      · rw [if_neg h4]
        show s.totalTyped + 1 + s.totalMisses = s.totalTyped + s.totalMisses + 1
        omega
    · rw [if_neg h3]
      show s.totalTyped + (s.totalMisses + 1) = s.totalTyped + s.totalMisses + 1
      omega

theorem runKeys_counts (keys : List (List Char)) :
    ∀ s : InputHandler, (∀ k ∈ keys, k.length = 1) →
      (runKeys s keys).totalTyped + (runKeys s keys).totalMisses =
        s.totalTyped + s.totalMisses + evalCount s keys := by
  induction keys with
  | nil => intro s _; simp [runKeys, evalCount]
  | cons k ks ih =>
    intro s h
    have hk : k.length = 1 := h k (List.mem_cons_self k ks)
    have hstep := handleKey_counts s k hk
    have hrest := ih (handleKey s k).2 (fun k2 hk2 => h k2 (List.mem_cons_of_mem _ hk2))
    by_cases hfin : s.currentIndex < s.targetKana.length
    · simp only [runKeys, evalCount, if_pos hfin] at *
      omega
    · simp only [runKeys, evalCount, if_neg hfin] at *
      omega

theorem lt_of_drop_cons {l : List Char} {i : Nat} {c : Char} {rest : List Char}
    (h : l.drop i = c :: rest) : i < l.length := by
  by_contra hge
  push_neg at hge
  rw [List.drop_eq_nil_of_le hge] at h
  exact List.cons_ne_nil c rest h.symm

/-! ## Claim theorems about InputHandler -/

/-- C3: every single-character key handled while the matcher is not yet
finished increments exactly one of the two counters by exactly one, and over
any sequence of single-character keys the counters sum to the number of
calls made while not finished. -/
theorem counter_conservation :
    (∀ (s : InputHandler) (key : List Char), key.length = 1 →
      s.currentIndex < s.targetKana.length →
      ((handleKey s key).2.totalTyped = s.totalTyped + 1 ∧
        (handleKey s key).2.totalMisses = s.totalMisses) ∨
      ((handleKey s key).2.totalTyped = s.totalTyped ∧
        (handleKey s key).2.totalMisses = s.totalMisses + 1)) ∧
    (∀ (s : InputHandler) (keys : List (List Char)), (∀ k ∈ keys, k.length = 1) →
      (runKeys s keys).totalTyped + (runKeys s keys).totalMisses =
        s.totalTyped + s.totalMisses + evalCount s keys) := by
  constructor
  · intro s key hk hfin
    simp only [handleKey]
    rw [if_neg (by omega), if_neg (not_not_intro hk)]
    by_cases h3 : (possibleRomajisFrom (s.targetKana.drop s.currentIndex)).any
        (fun r => (s.currentInput ++ key).isPrefixOf r) = true
    · rw [if_pos h3]
      by_cases h4 : (possibleRomajisFrom (s.targetKana.drop s.currentIndex)).contains
          (s.currentInput ++ key) = true
      · rw [if_pos h4]; left; exact ⟨rfl, rfl⟩
      · rw [if_neg h4]; left; exact ⟨rfl, rfl⟩
    · rw [if_neg h3]; right; exact ⟨rfl, rfl⟩
  · intro s keys h
    exact runKeys_counts keys s h

/-- witness for C3 on the target さ with the keys s, z, a. -/
theorem counter_conservation_witness :
    (runKeys (setTarget InputHandler.new (str "さ")) [str "s", str "z", str "a"]).totalTyped +
      (runKeys (setTarget InputHandler.new (str "さ")) [str "s", str "z", str "a"]).totalMisses =
      0 + 0 + evalCount (setTarget InputHandler.new (str "さ")) [str "s", str "z", str "a"] :=
  counter_conservation.2 (setTarget InputHandler.new (str "さ"))
    [str "s", str "z", str "a"] (by decide)

/-- C4: once the cursor has reached the end of the target, every further
call returns false and leaves the state (cursor, buffer and both counters)
unchanged, over any number of further calls with any keys. -/
theorem finished_absorbing (s : InputHandler)
    (hfin : s.targetKana.length ≤ s.currentIndex) :
    (∀ key, handleKey s key = (false, s)) ∧ (∀ keys, runKeys s keys = s) := by
  have h1 : ∀ key, handleKey s key = (false, s) := by
    intro key
    simp only [handleKey]
    rw [if_pos hfin]
  refine ⟨h1, fun keys => ?_⟩
  induction keys with
  | nil => rfl
  | cons k ks ih =>
    simp only [runKeys]
    rw [h1 k]
    exact ih

/-- witness for C4 at a concrete finished state. -/
theorem finished_absorbing_witness :
    handleKey { targetKana := str "さ", currentInput := [], currentIndex := 1,
                totalTyped := 2, totalMisses := 3 } (str "x") =
      (false, { targetKana := str "さ", currentInput := [], currentIndex := 1,
                totalTyped := 2, totalMisses := 3 }) :=
  (finished_absorbing _ (by decide)).1 (str "x")

/-- C5: a single-character key whose tentative buffer extends no accepted
spelling of the current unit is rejected: the call returns false, the miss
counter grows by one, and the cursor and buffer stay as they were. -/
theorem invalid_key_rejected (s : InputHandler) (c : Char)
    (hfin : s.currentIndex < s.targetKana.length)
    (hbad : ∀ r ∈ possibleRomajisFrom (s.targetKana.drop s.currentIndex),
      (s.currentInput ++ [c]).isPrefixOf r = false) :
    handleKey s [c] = (false, { s with totalMisses := s.totalMisses + 1 }) := by
  have hany : ((possibleRomajisFrom (s.targetKana.drop s.currentIndex)).any
      (fun r => (s.currentInput ++ [c]).isPrefixOf r)) = false := by
    rw [List.any_eq_false]
    intro r hr
    simp [hbad r hr]
  simp only [handleKey]
  rw [if_neg (by omega), if_neg (by simp), if_neg (by simp [hany])]

/-- witness for C5: the key z on a fresh matcher over さ. -/
theorem invalid_key_rejected_witness :
    handleKey (setTarget InputHandler.new (str "さ")) ['z'] =
      (false, { setTarget InputHandler.new (str "さ") with totalMisses := 0 + 1 }) :=
  invalid_key_rejected (setTarget InputHandler.new (str "さ")) 'z' (by decide) (by decide)

/-- C7: in every state reachable from a fresh matcher by key events, the
buffer is a prefix of at least one entry of the (spillover-composed)
spelling list of the current unit. -/
theorem buffer_valid_invariant (target : List Char) (s : InputHandler)
    (h : ReachableIH target s) :
    ∃ r ∈ possibleRomajisFrom (s.targetKana.drop s.currentIndex),
      s.currentInput.isPrefixOf r = true := by
  induction h with
  | base => exact nil_buffer_ok _
  | step s key _ ih =>
    simp only [handleKey]
    split_ifs with h1 h2 h3 h4
    · exact ih
    · exact ih
    · exact nil_buffer_ok _
    · obtain ⟨r, hr, hp⟩ := List.any_eq_true.mp h3
      exact ⟨r, hr, hp⟩
    · exact ih

/-- witness for C7 after one accepted key on the target し. -/
theorem buffer_valid_invariant_witness :
    ∃ r ∈ possibleRomajisFrom
        ((handleKey (setTarget InputHandler.new (str "し")) ['s']).2.targetKana.drop
          (handleKey (setTarget InputHandler.new (str "し")) ['s']).2.currentIndex),
      (handleKey (setTarget InputHandler.new (str "し")) ['s']).2.currentInput.isPrefixOf r =
        true :=
  buffer_valid_invariant (str "し") _
    (ReachableIH.step (setTarget InputHandler.new (str "し")) ['s'] ReachableIH.base)

/-- C9: setTarget resets the cursor and the buffer but leaves both counters
as they were, so the reported stats keep accumulating across successive
target sequences. -/
theorem setTarget_keeps_counters :
    (∀ (s : InputHandler) (kana : List Char),
      (setTarget s kana).currentIndex = 0 ∧ (setTarget s kana).currentInput = [] ∧
      (setTarget s kana).totalTyped = s.totalTyped ∧
      (setTarget s kana).totalMisses = s.totalMisses ∧
      getStats (setTarget s kana) = getStats s) ∧
    (∀ (s : InputHandler) (kana : List Char) (keys : List (List Char)),
      (∀ k ∈ keys, k.length = 1) →
      (runKeys (setTarget s kana) keys).totalTyped +
        (runKeys (setTarget s kana) keys).totalMisses =
        s.totalTyped + s.totalMisses + evalCount (setTarget s kana) keys) := by
  refine ⟨fun s kana => ⟨rfl, rfl, rfl, rfl, rfl⟩, fun s kana keys h => ?_⟩
  exact runKeys_counts keys (setTarget s kana) h

/-- witness for C9: a handler with prior counts 4 and 2 retargeted to し. -/
theorem setTarget_keeps_counters_witness :
    (runKeys (setTarget { targetKana := str "さ", currentInput := [], currentIndex := 1,
                          totalTyped := 4, totalMisses := 2 } (str "し")) [str "s"]).totalTyped +
      (runKeys (setTarget { targetKana := str "さ", currentInput := [], currentIndex := 1,
                            totalTyped := 4, totalMisses := 2 } (str "し")) [str "s"]).totalMisses =
      4 + 2 + evalCount (setTarget { targetKana := str "さ", currentInput := [],
                                     currentIndex := 1, totalTyped := 4,
                                     totalMisses := 2 } (str "し")) [str "s"] :=
  setTarget_keeps_counters.2 _ _ [str "s"] (by decide)

/-- C10: a key whose length is not exactly one is ignored: the call returns
false and the whole state is unchanged, finished or not. -/
theorem nonchar_key_ignored (s : InputHandler) (key : List Char)
    (hk : key.length ≠ 1) :
    handleKey s key = (false, s) := by
  simp only [handleKey]
  rcases le_or_lt s.targetKana.length s.currentIndex with h | h
  · rw [if_pos h]
  · rw [if_neg (by omega), if_pos hk]

/-- witness for C10: a two-character key on an unfinished matcher. -/
theorem nonchar_key_ignored_witness :
    handleKey (setTarget InputHandler.new (str "さ")) (str "ab") =
      (false, setTarget InputHandler.new (str "さ")) :=
  nonchar_key_ignored (setTarget InputHandler.new (str "さ")) (str "ab") (by decide)

/-! ## Claim theorems about RomajiCore -/

/-- C1: on the target っと, the key t is accepted and completes the geminate
unit, but the buffer is left empty instead of holding the spilled t, so the
following key o is rejected and no state changes — the sequence cannot be
finished by the two keys t, o. -/
theorem sokuon_spillover_failing_input :
    (RomajiCore.input ⟨str "っと", 0, []⟩ (str "t")).1 = true ∧
    (RomajiCore.input ⟨str "っと", 0, []⟩ (str "t")).2 = ⟨str "っと", 1, []⟩ ∧
    (RomajiCore.input ⟨str "っと", 1, []⟩ (str "o")).1 = false ∧
    (RomajiCore.input ⟨str "っと", 1, []⟩ (str "o")).2 = ⟨str "っと", 1, []⟩ := by
  decide

/-- C2 counterexample: at the nasal unit the buffer n followed by the vowel
a is resolved as completing the unit with the vowel spilled over, although
the guard is supposed to forbid exactly this. -/
theorem nasal_guard_counterexample :
    checkMatch (str "んあ") (str "na") = some ⟨1, str "a"⟩ ∧
    'a' ∈ ['a', 'i', 'u', 'e', 'o'] := by
  decide

/-- C2 amended: whenever the buffer at the nasal unit is n followed by a
vowel or y — exactly the cases the guard should forbid — the unit still
completes with spillover of the remainder, because the table lists bare n
as a complete spelling and the overflow branch fires before the guarded
branch. -/
theorem nasal_completion_unguarded (c : Char) (tail rest : List Char) (v : Char)
    (htab : ROMAJI_TABLE ['ん', c] = [])
    (hv : v ∈ ['a', 'i', 'u', 'e', 'o', 'y']) :
    checkMatch ('ん' :: c :: tail) ('n' :: v :: rest) = some ⟨1, v :: rest⟩ := by
  have htn : ROMAJI_TABLE ['ん'] = [['n'], ['n', 'n'], ['n', apos]] := by decide
  have hvn : (v == 'n') = false := by fin_cases hv <;> decide
  have hva : (v == apos) = false := by fin_cases hv <;> decide
  have hcomp : compound2 'ん' (c :: tail) ('n' :: v :: rest) = none := by
    simp [compound2, matchesAnything, htab]
  have hsok : sokuonDirect 'ん' (c :: tail) ('n' :: v :: rest) = none := by
    unfold sokuonDirect
    rw [if_neg (by decide)]
  have hplain : plainStep 'ん' ('n' :: v :: rest) = none := by
    simp [plainStep, matchesAnything, htn, List.isPrefixOf, hvn, hva]
  have hfind : List.find? (fun r => r.isPrefixOf ('n' :: v :: rest))
      [['n'], ['n', 'n'], ['n', apos]] = some ['n'] := by
    simp [List.find?, List.isPrefixOf]
  have hover : overflowStep 'ん' ('n' :: v :: rest) = some ⟨1, v :: rest⟩ := by
    unfold overflowStep
    rw [htn, hfind]
    rfl
  simp [checkMatch, hcomp, hsok, hplain, hover, Option.orElse]

/-- witness for C2 at the nasal unit of んか with the buffer nu. -/
theorem nasal_completion_unguarded_witness :
    checkMatch ('ん' :: 'か' :: []) ('n' :: 'u' :: []) = some ⟨1, ['u']⟩ :=
  nasal_completion_unguarded 'か' [] [] 'u' (by decide) (by decide)

/-- C6 counterexample: in InputHandler the unknown unit ア (no entry in the
romanization table) degrades to the placeholder spelling list containing the
question-mark string, so the question-mark key is accepted and advances the
cursor past the unit. -/
theorem unknown_unit_counterexample :
    KANA_ROMAJI_MAP 'ア' = [] ∧
    (handleKey (setTarget InputHandler.new (str "ア")) (str "?")).1 = true ∧
    (handleKey (setTarget InputHandler.new (str "ア")) (str "?")).2.currentIndex = 1 := by
  decide

/-- C6 amended (RomajiCore side): when neither the current character nor the
current character with its successor has a table entry, checkMatch returns
none for every input, every key is rejected with the state untouched, and no
key sequence ever moves the cursor past the unit. -/
theorem unknown_unit_unmatchable (u : Char) (rest : List Char)
    (h1 : ROMAJI_TABLE [u] = [])
    (h2 : ∀ c, rest.head? = some c → ROMAJI_TABLE [u, c] = []) :
    (∀ input, checkMatch (u :: rest) input = none) ∧
    ∀ s : RomajiCore, s.kanaText.drop s.currentIndex = u :: rest →
      (∀ key, RomajiCore.input s key = (false, s)) ∧
      ∀ keys, runRomaji s keys = s := by
  have hu1 : u ≠ 'っ' := by
    rintro rfl
    exact absurd h1 (by decide)
  have hu2 : u ≠ 'ん' := by
    rintro rfl
    exact absurd h1 (by decide)
  have hchk : ∀ input, checkMatch (u :: rest) input = none := by
    intro input
    have hc : compound2 u rest input = none := by
      cases rest with
      | nil => rfl
      | cons c2 r' => simp [compound2, matchesAnything, h2 c2 rfl]
    simp [checkMatch, hc, sokuonDirect, plainStep, overflowStep, sokuonSpill, nasalSpill,
      matchesAnything, h1, hu1, hu2, Option.orElse]
  refine ⟨hchk, fun s hdrop => ?_⟩
  have hlt : s.currentIndex < s.kanaText.length := lt_of_drop_cons hdrop
  have hnf : s.isFinished = false := by
    unfold RomajiCore.isFinished
    exact decide_eq_false (by omega)
  have hkey : ∀ key, RomajiCore.input s key = (false, s) := by
    intro key
    simp [RomajiCore.input, hnf, hdrop, hchk]
  refine ⟨hkey, fun keys => ?_⟩
  induction keys with
  | nil => rfl
  | cons k ks ih =>
    simp only [runRomaji]
    rw [hkey k]
    exact ih

/-- witness for C6 at the unknown unit ア. -/
theorem unknown_unit_unmatchable_witness :
    ROMAJI_TABLE ['ア'] = [] ∧
    RomajiCore.input ⟨['ア'], 0, []⟩ (str "x") = (false, ⟨['ア'], 0, []⟩) ∧
    runRomaji ⟨['ア'], 0, []⟩ [str "x", str "t", str "u"] = ⟨['ア'], 0, []⟩ := by
  refine ⟨by decide, ?_, ?_⟩
  · exact ((unknown_unit_unmatchable 'ア' [] (by decide)
      (fun c hc => absurd hc (by simp))).2 ⟨['ア'], 0, []⟩ rfl).1 (str "x")
  · exact ((unknown_unit_unmatchable 'ア' [] (by decide)
      (fun c hc => absurd hc (by simp))).2 ⟨['ア'], 0, []⟩ rfl).2 [str "x", str "t", str "u"]

/-- C8 counterexample: on the target し with the accepted character s in the
buffer, the hint is the whole canonical spelling shi, not the suffix
obtained by stripping the buffer length from the front. -/
theorem hint_counterexample :
    (RomajiCore.input ⟨str "し", 0, []⟩ (str "s")).2.currentInputBuffer = str "s" ∧
    (RomajiCore.input ⟨str "し", 0, []⟩ (str "s")).2.getNextExpectedRomaji = str "shi" ∧
    str "shi" ≠ (str "shi").drop (str "s").length := by
  decide

/-- C8 amended: the hint is recomputed from the target and the cursor only —
it does not depend on the buffer at all — and for a plain unit with a table
entry (and no compound entry with the following character) it is the whole
canonical first spelling, with nothing stripped. -/
theorem hint_full_canonical :
    (∀ (s : RomajiCore) (b : Rom),
      RomajiCore.getNextExpectedRomaji { s with currentInputBuffer := b } =
        RomajiCore.getNextExpectedRomaji s) ∧
    (∀ (s : RomajiCore) (c1 : Char) (rest : List Char),
      s.kanaText.drop s.currentIndex = c1 :: rest →
      c1 ≠ 'っ' →
      (∀ c2, rest.head? = some c2 → ROMAJI_TABLE [c1, c2] = []) →
      ∀ r rs, ROMAJI_TABLE [c1] = r :: rs →
      RomajiCore.getNextExpectedRomaji s = r) := by
  constructor
  · intro s b
    cases s
    rfl
  · intro s c1 rest hdrop hc1 hcomp r rs htab
    have hlt : s.currentIndex < s.kanaText.length := lt_of_drop_cons hdrop
    have hnf : s.isFinished = false := by
      unfold RomajiCore.isFinished
      exact decide_eq_false (by omega)
    cases rest with
    | nil => simp [RomajiCore.getNextExpectedRomaji, hnf, hdrop, hc1, htab]
    | cons c2 r' =>
      simp [RomajiCore.getNextExpectedRomaji, hnf, hdrop, hc1, htab, hcomp c2 rfl]

/-- witness for C8: the hint on し with buffer s is the full shi. -/
theorem hint_full_canonical_witness :
    RomajiCore.getNextExpectedRomaji ⟨str "し", 0, str "s"⟩ = str "shi" :=
  hint_full_canonical.2 ⟨str "し", 0, str "s"⟩ 'し' [] rfl (by decide)
    (fun c2 hc2 => absurd hc2 (by simp)) (str "shi") [str "si", str "ci"] (by decide)

end Typing
